import Mathlib

/-!
Verification of the allchange changelog generator against its specification.

The development shallowly embeds the relevant TypeScript sources:
  - `src/changes.ts`       : change classification from pull-request data
  - `src/releases.ts`      : release-list resolution
  - `projects.ts`          : note selection, inclusion rules, subproject walk
  - `changelog.ts`         : changelog parsing and reconciliation

JavaScript strings are modelled as Lean `String`; the handful of string
operations used by the code (trim, toLowerCase, startsWith, split) are
reimplemented over the underlying character list so that they mirror the
JavaScript semantics on the ASCII inputs the program deals with.
-/

deriving instance DecidableEq for Except

namespace Allchange

/-! ### JavaScript string primitives -/

/-- ASCII whitespace test, matching what `String.prototype.trim` removes on
the ASCII plane. -/
def jsIsWS (c : Char) : Bool :=
  c = ' ' || c = '\t' || c = '\n' || c = '\r'

/-- Model of `String.prototype.trim`. -/
def jsTrim (s : String) : String :=
  ⟨((s.data.dropWhile jsIsWS).reverse.dropWhile jsIsWS).reverse⟩

/-- ASCII lower-casing of one character, as `toLowerCase` acts on ASCII. -/
def jsLowerChar (c : Char) : Char :=
  if 'A' ≤ c ∧ c ≤ 'Z' then Char.ofNat (c.toNat + 32) else c

/-- Model of `String.prototype.toLowerCase` (ASCII plane). -/
def jsToLower (s : String) : String :=
  ⟨s.data.map jsLowerChar⟩

/-- Model of `str.startsWith(pre)`. -/
def jsStartsWith (pre s : String) : Bool :=
  pre.data.isPrefixOf s.data

/-- Case-insensitive prefix test over character lists (used to model the
`i`-flagged regular expressions). -/
def ciIsPre (pat cs : List Char) : Bool :=
  (pat.map jsLowerChar).isPrefixOf (cs.map jsLowerChar)

/-- Model of `String.prototype.split` with a single-character separator:
`splitOnChar sep cs` cuts `cs` at every occurrence of `sep`. -/
def splitOnChar (sep : Char) : List Char → List (List Char)
  | [] => [[]]
  | c :: cs =>
    let r := splitOnChar sep cs
    if c = sep then [] :: r
    else (c :: r.headD []) :: r.tail

/-- The `\w` character class of JavaScript regular expressions plus `-`,
i.e. the class `[\w-]` used throughout `changes.ts`. -/
def isWordChar (c : Char) : Bool :=
  c.isAlpha || c.isDigit || c = '_' || c = '-'

/-- Numeric value of a digit run (the behaviour of `parseInt` on a string of
ASCII digits). -/
def parseNatDigits (ds : List Char) : Nat :=
  ds.foldl (fun n c => n * 10 + (c.toNat - '0'.toNat)) 0

/-! ### Data model (`src/changes.ts`) -/

/-- `enum ChangeType` from `changes.ts`. -/
inductive ChangeType
  | FEATURE
  | BUGFIX
  | TASK
  | DEPRECATION
deriving DecidableEq

/-- `IIssueID` from `changes.ts`. -/
structure IIssueID where
  owner : String
  repo : String
  number : Nat
deriving DecidableEq

/-- One element of `pr.labels`. -/
structure Label where
  name : String
deriving DecidableEq

/-- The fields of the GitHub pull-request record (`PrInfo`) that the
classifier and the renderer read. `body` is `none` for a null body;
`baseRepoOwnerName`/`baseRepoName` stand for `pr.base.repo.owner.name` and
`pr.base.repo.name`. -/
structure PrInfo where
  title : String
  body : Option String
  labels : List Label
  baseRepoOwnerName : String
  baseRepoName : String
  number : Nat
  htmlUrl : String
  authorAssociation : String
  userLogin : String
deriving DecidableEq

/-- `IChange` from `changes.ts`. `notes`/`headline` use `none` for the JS
`null`; `notesByProject` is the JS object as an association list whose
values may themselves be the JS `null`; `changeType = none` is the unset
(`null`) state. `shouldInclude` is the optional flag, `false` until the
project walker sets it. -/
structure IChange where
  pr : PrInfo
  notes : Option String
  notesByProject : List (String × Option String)
  headline : Option String
  changeType : Option ChangeType
  fixes : List IIssueID
  breaking : Bool
  security : Bool
  shouldInclude : Bool := false
deriving DecidableEq

/-- `labelToChangeType` from `changes.ts`: the object literal, in source
order. -/
def labelToChangeType : List (String × ChangeType) :=
  [("T-Deprecation", ChangeType.DEPRECATION),
   ("T-Enhancement", ChangeType.FEATURE),
   ("T-Defect", ChangeType.BUGFIX),
   ("T-Task", ChangeType.TASK)]

/-- `labelToChangeType[name]`: `none` models the JS `undefined`. -/
def lookupLabel (name : String) : Option ChangeType :=
  match labelToChangeType.find? (fun p => p.1 = name) with
  | some p => some p.2
  | none => none

/-- `BREAKING_CHANGE_LABEL` from `changes.ts`. -/
def BREAKING_CHANGE_LABEL : String := "X-Breaking-Change"

/-- Association-list lookup modelling JS property access `obj[key]`;
`none` models `undefined`. -/
def lookupStr {α : Type} (k : String) : List (String × α) → Option α
  | [] => none
  | (k', v) :: rest => if k' = k then some v else lookupStr k rest

/-- Association-list assignment modelling `obj[key] = v`. -/
def upsertStr {α : Type} (k : String) (v : α) : List (String × α) → List (String × α)
  | [] => [(k, v)]
  | (k', v') :: rest => if k' = k then (k, v) :: rest else (k', v') :: upsertStr k v rest

/-! ### The body-line matchers of `changeFromPrInfo` -/

/-- The nine closing verbs of the three issue regular expressions
(`close[sd]?|fix|fixe[sd]|resolve[sd]?`, case-insensitive). At any text
position at most one verb can be followed by the mandatory `:? ` suffix
(the alternatives are prefix-closed only up to a letter), so trying the
alternatives in any order is equivalent to the backtracking regex. -/
def fixVerbs : List String :=
  ["close", "closes", "closed", "fix", "fixes", "fixed",
   "resolve", "resolves", "resolved"]

/-- Match `(?:close[sd]?|fix|fixe[sd]|resolve[sd]?):? ` at the head of the
text, returning the remainder after the space. -/
def afterFixVerb (cs : List Char) : Option (List Char) :=
  fixVerbs.findSome? fun v =>
    if ciIsPre v.data cs then
      let r := cs.drop v.length
      let r := match r with
        | ':' :: r2 => r2
        | _ => r
      match r with
      | ' ' :: r2 => some r2
      | _ => none
    else none

/-- Tail of `HASH_NUMBER_ISSUE_REGEXP`: `#(\d+)` after the verb. -/
def hashIssueTail (r : List Char) : Option Nat :=
  match r with
  | '#' :: ds =>
    let digits := ds.takeWhile Char.isDigit
    if digits.isEmpty then none else some (parseNatDigits digits)
  | _ => none

/-- Tail of `OWNER_HASH_NUMBER_ISSUE_REGEXP`: `([\w-]*)\/([\w-]*)#(\d+)`.
Because `[\w-]*` cannot match `/` or `#`, only the maximal word-character
runs can satisfy the pattern, so no backtracking is needed. -/
def ownerRepoIssueTail (r : List Char) : Option (String × String × Nat) :=
  let ow := r.takeWhile isWordChar
  match r.drop ow.length with
  | '/' :: r2 =>
    let rp := r2.takeWhile isWordChar
    match r2.drop rp.length with
    | '#' :: ds =>
      let digits := ds.takeWhile Char.isDigit
      if digits.isEmpty then none
      else some (⟨ow⟩, ⟨rp⟩, parseNatDigits digits)
    | _ => none
  | _ => none

/-- Tail of `ISSUE_URL_REGEXP`:
`https?:\/\/github.com\/([\w-]*)\/([\w-]*)\/issues\/([\d]*)`.
The `.` of `github.com` is the regex wildcard, hence the single skipped
character. `[\d]*` may be empty, in which case the JS code would record
`parseInt('') = NaN`; the model records 0, a case no claim exercises. -/
def urlIssueTail (r : List Char) : Option (String × String × Nat) :=
  if ciIsPre "http".data r then
    let r := r.drop 4
    let r := match r with
      | 's' :: r2 => r2
      | 'S' :: r2 => r2
      | _ => r
    if ciIsPre "://github".data r then
      match r.drop 9 with
      | _ :: r2 =>
        if ciIsPre "com/".data r2 then
          let r3 := r2.drop 4
          let ow := r3.takeWhile isWordChar
          match r3.drop ow.length with
          | '/' :: r4 =>
            let rp := r4.takeWhile isWordChar
            if ciIsPre "/issues/".data (r4.drop rp.length) then
              let ds := (r4.drop rp.length).drop 8
              some (⟨ow⟩, ⟨rp⟩, parseNatDigits (ds.takeWhile Char.isDigit))
            else none
          | _ => none
        else none
      | [] => none
    else none
  else none

/-- Unanchored regex search: try the pattern at every start position, in
order, returning the first match (the semantics of `line.match(r)` for the
capture groups we need). -/
def searchFrom {α : Type} (f : List Char → Option α) : List Char → Option α
  | [] => f []
  | c :: cs =>
    match f (c :: cs) with
    | some x => some x
    | none => searchFrom f cs

/-- `PROJECT_NOTES_REGEX = /^([\w-]*) notes: (.*)$/i` applied to the raw
line. Only the maximal `[\w-]*` prefix can be followed by the literal
space, so no backtracking arises. `(.*)$` requires the remainder to be
free of characters the wildcard cannot match; lines are already split on
`\n`, and the model requires the absence of `\r` just as the regex does. -/
def projectNotesMatch (line : String) : Option (String × String) :=
  let cs := line.data
  let proj := cs.takeWhile isWordChar
  let rest := cs.drop proj.length
  if ciIsPre " notes: ".data rest ∧ (rest.drop 8).all (fun c => c ≠ '\r' ∧ c ≠ '\n') then
    some (⟨proj⟩, ⟨rest.drop 8⟩)
  else none

/-- `NOTES_MAGIC_TEXT` / `HEADLINE_MAGIC_TEXT`. -/
def NOTES_MAGIC_TEXT : String := "notes: "

def HEADLINE_MAGIC_TEXT : String := "headlines: "

/-- `trimmed.split(':', 2)[1]`: the second field of the colon split (the
text strictly between the first and second colon, or everything after the
first colon when there is no second one). On lines that matched one of the
magic prefixes a colon is always present, so the JS index access cannot be
`undefined`. -/
def splitColonSecond (s : String) : String :=
  ⟨(splitOnChar ':' s.data).tail.headD []⟩

/-- The mutable locals of the body scan in `changeFromPrInfo`. -/
structure ScanState where
  notes : Option String
  headline : Option String
  notesByProject : List (String × Option String)
  fixes : List IIssueID
deriving DecidableEq

/-- One iteration of `for (const line of pr.body.split("\n"))` in
`changeFromPrInfo`: the ordered `if`/`else if` chain over the six line
patterns, first match wins. -/
def scanLine (pr : PrInfo) (st : ScanState) (line : String) : ScanState :=
  let trimmed := jsTrim line
  if jsStartsWith NOTES_MAGIC_TEXT (jsToLower trimmed) then
    let v := jsTrim (splitColonSecond trimmed)
    { st with notes := if jsToLower v = "none" then none else some v }
  else if jsStartsWith HEADLINE_MAGIC_TEXT (jsToLower trimmed) then
    { st with headline := some (jsTrim (splitColonSecond trimmed)) }
  else match projectNotesMatch line with
  | some (proj, text) =>
    let v := jsTrim text
    { st with notesByProject :=
        upsertStr proj (if jsToLower v = "none" then none else some v) st.notesByProject }
  | none =>
    match searchFrom (fun cs => afterFixVerb cs >>= hashIssueTail) line.data with
    | some n =>
      { st with fixes := st.fixes ++ [⟨pr.baseRepoOwnerName, pr.baseRepoName, n⟩] }
    | none =>
      match searchFrom (fun cs => afterFixVerb cs >>= ownerRepoIssueTail) line.data with
      | some (ow, rp, n) => { st with fixes := st.fixes ++ [⟨ow, rp, n⟩] }
      | none =>
        match searchFrom (fun cs => afterFixVerb cs >>= urlIssueTail) line.data with
        | some (ow, rp, n) => { st with fixes := st.fixes ++ [⟨ow, rp, n⟩] }
        | none => st

/-- The label loop of `changeFromPrInfo`: threads
`(changeType, breaking)`; a recognised type label overwrites `changeType`
(last one wins), the breaking label sets `breaking`. -/
def labelScan (labels : List Label) : Option ChangeType × Bool :=
  labels.foldl
    (fun st l =>
      match lookupLabel l.name with
      | some t => (some t, st.2)
      | none => if l.name = BREAKING_CHANGE_LABEL then (st.1, true) else st)
    (none, false)

/-- `changeFromPrInfo` from `changes.ts`: pure classification of one PR.
`if (pr.body)` skips the body scan when the body is null or the empty
string. -/
def changeFromPrInfo (pr : PrInfo) : IChange :=
  let lb := labelScan pr.labels
  let st0 : ScanState := ⟨some pr.title, none, [], []⟩
  let st :=
    match pr.body with
    | none => st0
    | some b =>
      if b = "" then st0
      else ((splitOnChar '\n' b.data).map String.mk).foldl (scanLine pr) st0
  { pr := pr
    notes := st.notes
    notesByProject := st.notesByProject
    headline := st.headline
    changeType := lb.1
    fixes := st.fixes
    breaking := lb.2
    security := false }

/-! ### Semantic versions (the subset of the `semver` package the code uses) -/

/-- One dot-separated prerelease identifier: numeric identifiers compare
numerically and precede alphanumeric ones. -/
inductive PreId
  | num (n : Nat)
  | str (s : String)
deriving DecidableEq

/-- A parsed semantic version (`SemVer` of the `semver` package): main
triple plus prerelease identifier list (`prerelease.length == 0` means a
final release). Build metadata is irrelevant to comparison and omitted. -/
structure SemVer where
  major : Nat
  minor : Nat
  patch : Nat
  pre : List PreId
deriving DecidableEq

/-- Character-code comparison of strings (the `<`/`>` of JS on ASCII
strings), used for alphanumeric prerelease identifiers. -/
def cmpChars : List Char → List Char → Ordering
  | [], [] => .eq
  | [], _ :: _ => .lt
  | _ :: _, [] => .gt
  | c :: cs, d :: ds =>
    if c.toNat < d.toNat then .lt
    else if d.toNat < c.toNat then .gt
    else cmpChars cs ds

/-- `compareIdentifiers` of the `semver` package. -/
def cmpPreId : PreId → PreId → Ordering
  | .num n, .num m => compare n m
  | .num _, .str _ => .lt
  | .str _, .num _ => .gt
  | .str s, .str t => cmpChars s.data t.data

/-- Prerelease list comparison of the `semver` package: a version without
prerelease identifiers is greater than one with them; otherwise compare
identifier by identifier, a strict prefix being smaller. -/
def cmpPre : List PreId → List PreId → Ordering
  | [], [] => .eq
  | [], _ :: _ => .gt
  | _ :: _, [] => .lt
  | x :: xs, y :: ys =>
    match cmpPreId x y with
    | .eq => cmpPre xs ys
    | o => o

/-- `SemVer.compareMain`. -/
def SemVer.compareMain (a b : SemVer) : Ordering :=
  match compare a.major b.major with
  | .eq =>
    match compare a.minor b.minor with
    | .eq => compare a.patch b.patch
    | o => o
  | o => o

/-- `SemVer.compare` (the full semver precedence order). -/
def SemVer.cmp (a b : SemVer) : Ordering :=
  match a.compareMain b with
  | .eq => cmpPre a.pre b.pre
  | o => o

/-- Parse one prerelease identifier: all digits (without a leading zero)
is numeric, otherwise it must be alphanumeric/hyphen. -/
def parsePreId (cs : List Char) : Option PreId :=
  if cs.isEmpty then none
  else if cs.all Char.isDigit then
    if cs.length > 1 ∧ cs.headD '0' = '0' then none
    else some (.num (parseNatDigits cs))
  else if cs.all isWordChar then some (.str ⟨cs⟩)
  else none

/-- Parse a numeric main-version component (no leading zeros). -/
def parseNumComponent (cs : List Char) : Option Nat :=
  if cs.isEmpty then none
  else if cs.all Char.isDigit then
    if cs.length > 1 ∧ cs.headD '0' = '0' then none
    else some (parseNatDigits cs)
  else none

/-- `semver.parse` on the strings this program feeds it: an optional `v`
prefix, three dot-separated numeric components, an optional
`-`-introduced dot-separated prerelease list (build metadata after `+` is
dropped). Returns `none` (the JS `null`) on anything else. -/
def parseSemVer (s : String) : Option SemVer :=
  let cs := match s.data with
    | 'v' :: rest => rest
    | cs => cs
  let cs := (splitOnChar '+' cs).headD []
  let mainPart := cs.takeWhile (fun c => c ≠ '-')
  let prePart := cs.drop mainPart.length
  match splitOnChar '.' mainPart with
  | [ma, mi, pa] =>
    match parseNumComponent ma, parseNumComponent mi, parseNumComponent pa with
    | some ma', some mi', some pa' =>
      match prePart with
      | [] => some ⟨ma', mi', pa', []⟩
      | '-' :: rest =>
        let ids := (splitOnChar '.' rest).mapM parsePreId
        match ids with
        | some ids' => if ids'.isEmpty then none else some ⟨ma', mi', pa', ids'⟩
        | none => none
      | _ => none
    | _, _, _ => none
  | _ => none

/-! ### Release resolution (`src/releases.ts` and the callers in the CLI entry point) -/

/-- The two fields of a GitHub release record the resolver reads. -/
structure Release where
  name : String
  prerelease : Bool
deriving DecidableEq

/-- `getLatestRelease` from `releases.ts`. With `considerRCs` it returns
`rels[0]`; otherwise the first non-prerelease entry. In both cases the
function can fall off the end, which in JS produces `undefined`, modelled
by `none`. -/
def getLatestRelease (rels : List Release) (considerRCs : Bool) : Option Release :=
  if considerRCs then rels.head?
  else rels.find? (fun r => !r.prerelease)

/-- The call sites in `main` evaluate `getLatestRelease(rels, b).name`.
When `getLatestRelease` produced `undefined`, the member access throws a
`TypeError`, aborting the resolution; no fallback value exists. -/
def latestReleaseName (rels : List Release) (considerRCs : Bool) : Except String String :=
  match getLatestRelease rels considerRCs with
  | some r => .ok r.name
  | none => .error "TypeError: cannot read name of undefined"

/-! ### Projects (`projects.ts`) -/

/-- `enum BranchMode` from `projects.ts`. -/
inductive BranchMode
  | Exact
  | Release
  | Develop
deriving DecidableEq

/-- `SubProjectConfig` from `projects.ts`. -/
structure SubProjectConfig where
  includeByDefault : Bool
  mirrorVersion : Bool
deriving DecidableEq

/-- `getChangeNotes` from `projects.ts`: `null` for a task-typed or
untyped change, otherwise the per-project override when the key is
present (even when its value is `null`), else the default notes. -/
def getChangeNotes (change : IChange) (projectName : String) : Option String :=
  if change.changeType = some ChangeType.TASK ∨ change.changeType = none then none
  else
    match lookupStr projectName change.notesByProject with
    | some v => v
    | none => change.notes

/-- JS truthiness of `change.notesByProject[forProject.name]`: the key
must be present and its value a non-empty string (`null`, `undefined` and
the empty string are falsy). -/
def truthyNote : Option (Option String) → Bool
  | some (some s) => s ≠ ""
  | _ => false

/-- `shouldIncludeChange` from `projects.ts` (a `Project` method reading
only `forProject.name`, passed here directly). -/
def shouldIncludeChange (forProjectName : String) (change : IChange)
    (includeByDefault : Bool) : Bool :=
  if getChangeNotes change forProjectName = none then false
  else if truthyNote (lookupStr forProjectName change.notesByProject) then true
  else includeByDefault

/-- `parseDepVersion` from `projects.ts`: `isNaN(parseInt(ver[0]))` holds
exactly when the string is empty or its first character is not an ASCII
digit; in that case the function throws, otherwise it prepends `v`. -/
def parseDepVersion (ver : String) (dep : String) : Except String String :=
  match ver.data.head? with
  | some c =>
    if c.isDigit then .ok ("v" ++ ver)
    else .error ("Version " ++ ver ++ " of dependency " ++ dep ++ " is not exact!")
  | none => .error ("Version " ++ ver ++ " of dependency " ++ dep ++ " is not exact!")

/-- `getDepVersion` from `projects.ts`. In `Release` mode the dependency
pin is parsed with `semver.parse`; on an unparsable pin the subsequent
member accesses throw, modelled as an error. -/
def getDepVersion (ver : String) (proj : String) (branchMode : BranchMode) :
    Except String String :=
  match branchMode with
  | .Develop => .ok "develop"
  | .Release =>
    match parseSemVer ver with
    | some s =>
      .ok ("release-v" ++ toString s.major ++ "." ++ toString s.minor ++ "."
        ++ toString s.patch)
    | none => .error ("TypeError: semver.parse returned null for " ++ ver)
  | .Exact => parseDepVersion ver proj

/-- The external collaborators of `Project.collectChanges`, abstracted as
an environment keyed by project name:
`releaseCfg` is the subproject table of `release_config.yaml` (an
absent or unreadable file yields the empty table, as in
`getReleaseCfg`); `mergedPrs p from to` combines `getMergedPrs` with
`getPrInfo`, yielding the PR records merged between the two revisions;
`depPin p rev dep` is `dependencies[dep]` of the project manifest at
`rev` (`none` for an absent entry, whose `[0]` access would throw). -/
structure Env where
  releaseCfg : String → List (String × SubProjectConfig)
  mergedPrs : String → String → String → List PrInfo
  depPin : String → String → String → Option String

/-- Observable side effects of the walk, recorded so that theorems can
state that a call performed no revision walk and visited no subproject. -/
inductive TraceEvent
  | gitRevList (project fromVer toVer : String)
  | visitSubproject (parent child : String)
deriving DecidableEq

/-- The accumulator `ChangesByProject`. -/
abbrev ChangesByProject := List (String × List IChange)

/-- `Project.collectChanges` from `projects.ts`. The re-entry guard is
checked before anything else; `fuel` bounds the recursion depth only so
that the definition is total (the JS code relies on the guard for
termination) and is consumed solely when recursing into a subproject.
Each visited project walks its revisions, classifies and flags its
changes, inserts them under its name, then resolves and visits each
declared subproject in order, threading the accumulator; a bad dependency
pin aborts the walk, as the thrown exception does in JS. -/
def collectChanges (env : Env) (fuel : Nat) (name : String)
    (changes : ChangesByProject) (fromVer toVer : String)
    (branchMode : BranchMode) (forProject : String) (includeByDefault : Bool) :
    Except String (ChangesByProject × List TraceEvent) :=
  if (lookupStr name changes).isSome then .ok (changes, [])
  else
    match fuel with
    | 0 => .error "recursion depth exhausted"
    | fuel' + 1 =>
      let projChanges := (env.mergedPrs name fromVer toVer).map fun pr =>
        let c := changeFromPrInfo pr
        { c with shouldInclude := shouldIncludeChange forProject c includeByDefault }
      let changes := upsertStr name projChanges changes
      let trace := [TraceEvent.gitRevList name fromVer toVer]
      (env.releaseCfg name).foldl
        (fun st sub =>
          match st with
          | .error e => .error e
          | .ok (changes, trace) =>
            let fromRes :=
              if sub.2.mirrorVersion then .ok fromVer
              else
                match env.depPin name fromVer sub.1 with
                | some pin => parseDepVersion pin sub.1
                | none => .error "TypeError: cannot read 0 of undefined"
            let toRes :=
              if sub.2.mirrorVersion then .ok toVer
              else
                match env.depPin name toVer sub.1 with
                | some pin => getDepVersion pin sub.1 branchMode
                | none => .error "TypeError: cannot read 0 of undefined"
            match fromRes, toRes with
            | .ok subFrom, .ok subTo =>
              match collectChanges env fuel' sub.1 changes subFrom subTo branchMode
                  forProject (includeByDefault && sub.2.includeByDefault) with
              | .ok (changes', trace') =>
                .ok (changes', trace ++ TraceEvent.visitSubproject name sub.1 :: trace')
              | .error e => .error e
            | .error e, _ => .error e
            | _, .error e => .error e)
        (.ok (changes, trace))

/-! ### Changelog reconciliation (`changelog.ts`) -/

/-- `IChangelogEntry` of `changelog.ts` with the version already parsed:
`updateChangelog` immediately feeds `entry.version` to the `semver`
comparison functions, so the reconciler is stated over parsed versions. -/
structure CEntry where
  version : SemVer
  text : String
deriving DecidableEq

/-- The header regex `/^Changes in \[([\d.]+)\]/` of `readChangelog`:
after the literal `Changes in [` a non-empty run of digits and dots must
be followed immediately by `]`. Returns the captured group. -/
def changelogHeaderVersion (line : String) : Option String :=
  if jsStartsWith "Changes in [" line then
    let rest := line.data.drop 12
    let digits := rest.takeWhile (fun c => c.isDigit || c = '.')
    if !digits.isEmpty ∧ (rest.drop digits.length).headD ' ' = ']' then some ⟨digits⟩
    else none
  else none

/-- A section parsed by `readChangelog`: the version string the generator
yields (with its `v` prefix) and the verbatim text. -/
structure RawEntry where
  version : String
  text : String
deriving DecidableEq

/-- The line loop of `readChangelog`: a matching header emits the section
accumulated so far and starts a new one (`v` + capture); every line since
the first recognised header is appended, with its newline, to the current
section; lines before the first recognised header are dropped. -/
def readChangelogLoop : List String → Option String → String → List RawEntry
  | [], none, _ => []
  | [], some v, txt => [⟨v, txt⟩]
  | line :: rest, cur, txt =>
    match changelogHeaderVersion line with
    | some ver =>
      (match cur with
        | some v => [(⟨v, txt⟩ : RawEntry)]
        | none => []) ++ readChangelogLoop rest (some ("v" ++ ver)) (line ++ "\n")
    | none =>
      match cur with
      | some v => readChangelogLoop rest (some v) (txt ++ line ++ "\n")
      | none => readChangelogLoop rest none txt

/-- `readChangelog` from `changelog.ts`, over the lines of the persisted
document. -/
def readChangelog (lines : List String) : List RawEntry :=
  readChangelogLoop lines none ""

/-- `isPrereleaseFor` from `changelog.ts`. -/
def isPrereleaseFor (version forVersion : SemVer) : Bool :=
  !version.pre.isEmpty && forVersion.pre.isEmpty
    && version.compareMain forVersion = Ordering.eq

/-- The section loop of `updateChangelog`, threading `changeWritten`.
The new section is written as an entry carrying `forVersion` (its
rendered header displays exactly that version) and the supplied rendered
text; every branch follows the source: exact match replaces (and always
rewrites, even if already written), an older section triggers insertion
before it, `isPrereleaseFor` drops the section and writes the new text if
not yet written without setting the flag, and newer sections pass
through. -/
def updLoop (forVersion : SemVer) (newText : String) :
    List CEntry → Bool → List CEntry × Bool
  | [], w => ([], w)
  | e :: rest, w =>
    if forVersion.cmp e.version = Ordering.eq then
      let r := updLoop forVersion newText rest true
      (⟨forVersion, newText⟩ :: r.1, r.2)
    else if forVersion.cmp e.version = Ordering.gt then
      if w then
        let r := updLoop forVersion newText rest true
        (e :: r.1, r.2)
      else
        let r := updLoop forVersion newText rest true
        (⟨forVersion, newText⟩ :: e :: r.1, r.2)
    else if isPrereleaseFor e.version forVersion then
      if w then updLoop forVersion newText rest w
      else
        let r := updLoop forVersion newText rest w
        (⟨forVersion, newText⟩ :: r.1, r.2)
    else
      let r := updLoop forVersion newText rest w
      (e :: r.1, r.2)

/-- Error thrown by the tail check of `updateChangelog` (text abridged:
the source message also remarks that this should not happen). -/
def updateChangelogFailMsg : String := "I failed to write the change"

/-- `updateChangelog` from `changelog.ts`, over the parsed document: run
the section loop with `changeWritten = false`; if the flag never became
true the function throws before touching the persisted file. -/
def updateChangelog (forVersion : SemVer) (newText : String)
    (entries : List CEntry) : Except String (List CEntry) :=
  let r := updLoop forVersion newText entries false
  if r.2 then .ok r.1 else .error updateChangelogFailMsg

/-- The persisted `CHANGELOG.md` after a run of `updateChangelog`: the
rewrite goes to `CHANGELOG.tmp` and is swapped in (unlink + rename) only
after the loop and the tail check succeed, so a failed run leaves the
original document in place. -/
def updateChangelogFile (orig : List CEntry) (forVersion : SemVer)
    (newText : String) : List CEntry :=
  match updateChangelog forVersion newText orig with
  | .ok out => out
  | .error _ => orig

/-- The selection logic of `makeChangelogEntry` in
`changelog.ts` (lines 156-195): the changes that receive a rendered
bullet line, in render order. Only `shouldInclude` changes are
considered; breaking and security changes get their own sections and the
rest is split into features and bug fixes by exact `changeType`
equality. -/
def renderedChanges (changes : List IChange) : List IChange :=
  let shouldInclude := changes.filter fun c => c.shouldInclude
  let breaking := shouldInclude.filter fun c => c.breaking
  let security := shouldInclude.filter fun c => c.security
  let others := shouldInclude.filter fun c => !c.breaking && !c.security
  let features := others.filter fun c => c.changeType = some ChangeType.FEATURE
  let bugfixes := others.filter fun c => c.changeType = some ChangeType.BUGFIX
  security ++ breaking ++ features ++ bugfixes

/-! ### Concrete fixtures used by witnesses and counterexamples -/

/-- A subproject `S` pull request carrying a type label and a per-project
note addressed to the root project `P`. -/
def prNoteP : PrInfo :=
  ⟨"S change one", some "Does a thing\nP notes: does a thing",
   [⟨"T-Enhancement"⟩], "own", "S", 11, "urlA", "MEMBER", "alice"⟩

/-- The same pull request but with the note addressed to `S` itself, as
the literal scenario of the specification has it. -/
def prNoteS : PrInfo :=
  ⟨"S change one", some "S notes: does a thing",
   [⟨"T-Enhancement"⟩], "own", "S", 11, "urlA", "MEMBER", "alice"⟩

/-- A subproject `S` pull request with no notes lines at all. -/
def prNoNotes : PrInfo :=
  ⟨"S change two", some "Does a thing",
   [⟨"T-Enhancement"⟩], "own", "S", 12, "urlB", "MEMBER", "bob"⟩

/-- The two-project scenario environment: parent `P` declares subproject
`S` with `includeByDefault = false`; `P` itself has no changes in range;
`S` has the supplied change first and the notes-less change second; `P`
pins `S` to exact versions at both endpoints. -/
def scenarioEnv (first : PrInfo) : Env where
  releaseCfg := fun p => if p = "P" then [("S", ⟨false, false⟩)] else []
  mergedPrs := fun p _ _ => if p = "S" then [first, prNoNotes] else []
  depPin := fun p rev dep =>
    if p = "P" ∧ dep = "S" then
      if rev = "v1.0.0" then some "1.0.0"
      else if rev = "v2.0.0" then some "1.1.0"
      else none
    else none

/-- The `shouldInclude` flags recorded for `S` in the merged accumulator
after walking the scenario from `P`. -/
def scenarioIncludeFlags (env : Env) : Option (List Bool) :=
  match collectChanges env 2 "P" [] "v1.0.0" "v2.0.0" BranchMode.Exact "P" true with
  | .ok (acc, _) => (lookupStr "S" acc).map (List.map IChange.shouldInclude)
  | .error _ => none

/-- A change holding an explicit but empty per-project note for `P`. -/
def changeEmptyNote : IChange :=
  ⟨⟨"t", none, [], "o", "r", 1, "u", "MEMBER", "l"⟩,
   some "title", [("P", some "")], none, some ChangeType.FEATURE, [], false, false, false⟩

/-- A change holding an explicit non-empty per-project note for `P`. -/
def changeNoteForP : IChange :=
  ⟨⟨"t", none, [], "o", "r", 1, "u", "MEMBER", "l"⟩,
   some "title", [("P", some "x")], none, some ChangeType.FEATURE, [], false, false, false⟩

/-- A pull request whose body note text itself contains a colon. -/
def prColonNote : PrInfo :=
  ⟨"t", some "notes: a: b", [], "o", "r", 1, "u", "MEMBER", "l"⟩

/-- A pull request labelled only with `T-Deprecation`. -/
def prDeprecation : PrInfo :=
  ⟨"t", none, [⟨"T-Deprecation"⟩], "o", "r", 1, "u", "MEMBER", "l"⟩

/-- Environment whose parent `P` pins subproject `S` with the caret range
`^1.0.0`. -/
def envCaretPin : Env where
  releaseCfg := fun p => if p = "P" then [("S", ⟨true, false⟩)] else []
  mergedPrs := fun _ _ _ => []
  depPin := fun p _ dep => if p = "P" ∧ dep = "S" then some "^1.0.0" else none

/-- Environment whose parent `P` pins subproject `S` with the digit-led
range `1.x`. -/
def envDigitRangePin : Env where
  releaseCfg := fun p => if p = "P" then [("S", ⟨true, false⟩)] else []
  mergedPrs := fun _ _ _ => []
  depPin := fun p _ dep => if p = "P" ∧ dep = "S" then some "1.x" else none

/-- Spec-side reading of the C3 sentence, clearly separated from the
embedding of the code: the remainder of the line after the first colon
(the code instead truncates at the second colon). -/
def specNotesRemainder (s : String) : String :=
  ⟨(s.data.dropWhile (fun c => decide (c ≠ ':'))).drop 1⟩

/-- The text of the trimmed line strictly between its first and second
colons (everything after the first colon when no second one exists) —
an independent description of `split(':', 2)[1]`. -/
def textBetweenFirstTwoColons (s : String) : String :=
  ⟨((s.data.dropWhile (fun c => decide (c ≠ ':'))).drop 1).takeWhile (fun c => decide (c ≠ ':'))⟩

/-- A task-labelled change carrying explicit notes everywhere, used to
witness that note content cannot rescue a task change. -/
def taskChange : IChange :=
  ⟨⟨"task pr", none, [], "o", "r", 2, "u", "NONE", "l"⟩,
   some "notes", [("P", some "note for P")], none, some ChangeType.TASK, [], true, false, false⟩

/-- An environment with no subprojects, no merged PRs and no pins. -/
def emptyEnv : Env :=
  ⟨fun _ => [], fun _ _ _ => [], fun _ _ _ => none⟩

/-- A pull request whose body consists of the single line `Notes: None`. -/
def prNotesNone : PrInfo :=
  ⟨"t", some "Notes: None", [], "o", "r", 1, "u", "MEMBER", "l"⟩

/-- A pull request carrying only an unrecognised label. -/
def prPlainLabel : PrInfo :=
  ⟨"t", none, [⟨"Z-Random"⟩], "o", "r", 1, "u", "MEMBER", "l"⟩

/-- A pull request labelled only with `T-Enhancement`. -/
def prEnhancement : PrInfo :=
  ⟨"t", none, [⟨"T-Enhancement"⟩], "o", "r", 1, "u", "MEMBER", "l"⟩

/-! ### Supporting lemmas -/

theorem cmpChars_self (cs : List Char) : cmpChars cs cs = Ordering.eq := by
  induction cs with
  | nil => rfl
  | cons c cs ih => simp [cmpChars, ih]

theorem cmpPreId_self (x : PreId) : cmpPreId x x = Ordering.eq := by
  cases x with
  | num n => simp [cmpPreId, Nat.compare_eq_eq]
  | str s => simp [cmpPreId, cmpChars_self]

theorem cmpPre_self (l : List PreId) : cmpPre l l = Ordering.eq := by
  induction l with
  | nil => rfl
  | cons x xs ih => simp [cmpPre, cmpPreId_self, ih]

theorem compareMain_eq_iff (a b : SemVer) :
    a.compareMain b = Ordering.eq ↔
      a.major = b.major ∧ a.minor = b.minor ∧ a.patch = b.patch := by
  unfold SemVer.compareMain
  rcases hma : compare a.major b.major with _ | _ | _ <;>
    rcases hmi : compare a.minor b.minor with _ | _ | _ <;>
    rcases hpa : compare a.patch b.patch with _ | _ | _ <;>
    simp_all [Nat.compare_eq_eq, Nat.compare_eq_lt, Nat.compare_eq_gt] <;>
    omega

theorem compareMain_self (a : SemVer) : a.compareMain a = Ordering.eq := by
  rw [compareMain_eq_iff]
  exact ⟨rfl, rfl, rfl⟩

theorem cmp_self (a : SemVer) : a.cmp a = Ordering.eq := by
  unfold SemVer.cmp
  rw [compareMain_self, cmpPre_self]

/-- The guard of the third branch of the section loop implies that the
second branch already fired: a prerelease of the target version is
strictly older than it, so `isPrereleaseFor` is unreachable there. -/
theorem cmp_gt_of_isPrereleaseFor (a b : SemVer) (h : isPrereleaseFor a b = true) :
    b.cmp a = Ordering.gt := by
  unfold isPrereleaseFor at h
  simp only [Bool.and_eq_true, Bool.not_eq_true', decide_eq_true_eq] at h
  obtain ⟨⟨h1, h2⟩, h3⟩ := h
  have hm : b.compareMain a = Ordering.eq := by
    rw [compareMain_eq_iff] at h3 ⊢
    exact ⟨h3.1.symm, h3.2.1.symm, h3.2.2.symm⟩
  unfold SemVer.cmp
  rw [hm]
  have hb : b.pre = [] := List.isEmpty_iff.mp h2
  rw [hb]
  cases hp : a.pre with
  | nil => rw [hp] at h1; simp [List.isEmpty_nil] at h1
  | cons x xs => rfl

/-- Once `changeWritten` is true it stays true. -/
theorem updLoop_flag_true (v : SemVer) (t : String) (es : List CEntry) :
    (updLoop v t es true).2 = true := by
  induction es with
  | nil => rfl
  | cons e rest ih =>
    simp only [updLoop]
    split
    · exact ih
    · split
      · exact ih
      · split
        · exact ih
        · exact ih

/-- A section with exactly the target version forces the flag. -/
theorem updLoop_flag_of_mem (v : SemVer) (t : String) (es : List CEntry) (w : Bool)
    (h : ∃ e ∈ es, v.cmp e.version = Ordering.eq) : (updLoop v t es w).2 = true := by
  induction es generalizing w with
  | nil => simp at h
  | cons e rest ih =>
    obtain ⟨e', he', hc'⟩ := h
    simp only [updLoop]
    by_cases hc : v.cmp e.version = Ordering.eq
    · rw [if_pos hc]
      exact updLoop_flag_true v t rest
    · rw [if_neg hc]
      have hrest : ∃ x ∈ rest, v.cmp x.version = Ordering.eq := by
        rcases List.mem_cons.mp he' with h1 | h1
        · exact absurd (h1 ▸ hc') hc
        · exact ⟨e', h1, hc'⟩
      by_cases hg : v.cmp e.version = Ordering.gt
      · rw [if_pos hg]
        cases w <;> simp [updLoop_flag_true]
      · rw [if_neg hg]
        by_cases hp : isPrereleaseFor e.version v = true
        · exact absurd (cmp_gt_of_isPrereleaseFor _ _ hp) hg
        · rw [if_neg hp]
          simpa using ih w hrest

/-- Re-running the section loop on its own output reproduces that output
and final flag, whatever the starting flag: the loop is idempotent on the
documents it produces. -/
theorem updLoop_idem (v : SemVer) (t : String) (es : List CEntry) (w : Bool) :
    updLoop v t (updLoop v t es w).1 w = updLoop v t es w := by
  induction es generalizing w with
  | nil => simp [updLoop]
  | cons e rest ih =>
    by_cases hc : v.cmp e.version = Ordering.eq
    · simp only [updLoop, if_pos hc, cmp_self, reduceIte]
      rw [ih true]
    · by_cases hg : v.cmp e.version = Ordering.gt
      · cases w with
        | true =>
          simp only [updLoop, if_neg hc, if_pos hg, reduceIte]
          rw [ih true]
        | false =>
          simp only [updLoop, if_neg hc, if_pos hg, cmp_self, reduceIte, Bool.false_eq_true]
          rw [ih true]
      · by_cases hp : isPrereleaseFor e.version v = true
        · exact absurd (cmp_gt_of_isPrereleaseFor _ _ hp) hg
        · simp only [updLoop, if_neg hc, if_neg hg, if_neg hp]
          rw [ih w]

/-- When the target version is older than every section, the loop passes
everything through and never sets the flag. -/
theorem updLoop_all_newer (v : SemVer) (t : String) (es : List CEntry) (w : Bool)
    (h : ∀ e ∈ es, v.cmp e.version = Ordering.lt) : updLoop v t es w = (es, w) := by
  induction es with
  | nil => rfl
  | cons e rest ih =>
    have hlt : v.cmp e.version = Ordering.lt := h e (List.mem_cons_self e rest)
    have hc : ¬ v.cmp e.version = Ordering.eq := by rw [hlt]; simp
    have hg : ¬ v.cmp e.version = Ordering.gt := by rw [hlt]; simp
    have hp : ¬ isPrereleaseFor e.version v = true := fun hpre =>
      hg (cmp_gt_of_isPrereleaseFor _ _ hpre)
    simp only [updLoop, if_neg hc, if_neg hg, if_neg hp]
    rw [ih (fun x hx => h x (List.mem_cons_of_mem e hx))]

theorem splitOnChar_ne_nil (sep : Char) (cs : List Char) : splitOnChar sep cs ≠ [] := by
  cases cs with
  | nil => simp [splitOnChar]
  | cons c cs =>
    simp only [splitOnChar]
    split <;> simp

/-- The first field of the split is the run before the first separator. -/
theorem splitOnChar_head (sep : Char) (cs : List Char) :
    (splitOnChar sep cs).headD [] = cs.takeWhile (fun c => decide (c ≠ sep)) := by
  induction cs with
  | nil => rfl
  | cons c cs ih =>
    simp only [splitOnChar, List.takeWhile]
    by_cases h : c = sep
    · subst h
      simp
    · simpa [h] using ih

/-- The second field of the split is the text strictly between the first
and second separators. -/
theorem splitOnChar_second (sep : Char) (cs : List Char) :
    (splitOnChar sep cs).tail.headD [] =
      ((cs.dropWhile (fun c => decide (c ≠ sep))).drop 1).takeWhile
        (fun c => decide (c ≠ sep)) := by
  induction cs with
  | nil => rfl
  | cons c cs ih =>
    by_cases h : c = sep
    · subst h
      simpa [splitOnChar, List.dropWhile] using splitOnChar_head c cs
    · have hne := splitOnChar_ne_nil sep cs
      rcases hr : splitOnChar sep cs with _ | ⟨hd, tl⟩
      · exact absurd hr hne
      · simpa [splitOnChar, List.dropWhile, hr, h] using ih

/-- A list without the separator splits into itself alone. -/
theorem splitOnChar_no_sep (sep : Char) (cs : List Char) (h : ∀ c ∈ cs, ¬ c = sep) :
    splitOnChar sep cs = [cs] := by
  induction cs with
  | nil => rfl
  | cons c cs ih =>
    have hc : ¬ c = sep := h c (List.mem_cons_self c cs)
    have ih' := ih (fun x hx => h x (List.mem_cons_of_mem c hx))
    simp [splitOnChar, hc, ih']

/-- `split(':', 2)[1]` computes the text of the line strictly between its
first and second colons. -/
theorem splitColonSecond_eq (s : String) :
    splitColonSecond s = textBetweenFirstTwoColons s := by
  unfold splitColonSecond textBetweenFirstTwoColons
  rw [splitOnChar_second]

/-- JS truthiness of a per-project note: the key is present with a
non-empty, non-null value. -/
theorem truthyNote_iff (o : Option (Option String)) :
    truthyNote o = true ↔ ∃ s, o = some (some s) ∧ s ≠ "" := by
  rcases o with _ | (_ | s) <;> simp [truthyNote]

/-- If no label of the list is in the type table, the fold never touches
the first component. -/
theorem labelScan_none (ls : List Label) (st : Option ChangeType × Bool)
    (h : ∀ l ∈ ls, lookupLabel l.name = none) :
    (ls.foldl
      (fun st l =>
        match lookupLabel l.name with
        | some t => (some t, st.2)
        | none => if l.name = BREAKING_CHANGE_LABEL then (st.1, true) else st)
      st).1 = st.1 := by
  induction ls generalizing st with
  | nil => rfl
  | cons l ls ih =>
    have hl : lookupLabel l.name = none := h l (List.mem_cons_self l ls)
    have h' : ∀ x ∈ ls, lookupLabel x.name = none := fun x hx =>
      h x (List.mem_cons_of_mem l hx)
    simp only [List.foldl_cons, hl]
    exact (ih _ h').trans (by split <;> rfl)

/-! ### Claim theorems -/

/-- C1: the claimed prerelease supersession never happens. On the spec
example — a document holding only a `1.2.0-rc.1` section, new final
section `1.2.0` — the parser does not even recognise the prerelease
header (its regex demands `]` right after digits and dots), so the
document parses empty and the update throws its tail error; and even on a
parsed prerelease entry the comparison branch fires first (a prerelease
is strictly older than its final version), inserting the new section
before the prerelease section and preserving the prerelease section
verbatim instead of dropping it. The `isPrereleaseFor` branch is
unreachable. -/
theorem c1_prerelease_supersession_fails :
    readChangelog ["Changes in [1.2.0-rc.1](url)", "=====================", "", " * rc change"] = []
    ∧ updateChangelog ⟨1, 2, 0, []⟩ "NEW" [] = .error updateChangelogFailMsg
    ∧ isPrereleaseFor ⟨1, 2, 0, [.str "rc", .num 1]⟩ ⟨1, 2, 0, []⟩ = true
    ∧ SemVer.cmp ⟨1, 2, 0, []⟩ ⟨1, 2, 0, [.str "rc", .num 1]⟩ = Ordering.gt
    ∧ updateChangelog ⟨1, 2, 0, []⟩ "NEW" [⟨⟨1, 2, 0, [.str "rc", .num 1]⟩, "RC"⟩]
        = .ok [⟨⟨1, 2, 0, []⟩, "NEW"⟩, ⟨⟨1, 2, 0, [.str "rc", .num 1]⟩, "RC"⟩] := by
  decide

/-- C4: when the new version is older than every parsed section (or the
document has no sections at all), the section loop passes everything
through, the tail check fails with the invalid-state error, and the
persisted changelog is left unmodified. -/
theorem c4_older_than_all_fails (v : SemVer) (t : String) (es : List CEntry)
    (h : ∀ e ∈ es, v.cmp e.version = Ordering.lt) :
    updateChangelog v t es = .error updateChangelogFailMsg
    ∧ updateChangelogFile es v t = es := by
  have hl := updLoop_all_newer v t es false h
  constructor
  · simp [updateChangelog, hl]
  · simp [updateChangelogFile, updateChangelog, hl]

/-- Witness for C4 at a concrete one-section document newer than the
target. -/
theorem c4_witness :
    updateChangelog ⟨1, 0, 0, []⟩ "N" [⟨⟨2, 0, 0, []⟩, "X"⟩] = .error updateChangelogFailMsg
    ∧ updateChangelogFile [⟨⟨2, 0, 0, []⟩, "X"⟩] ⟨1, 0, 0, []⟩ "N" = [⟨⟨2, 0, 0, []⟩, "X"⟩] :=
  c4_older_than_all_fails ⟨1, 0, 0, []⟩ "N" [⟨⟨2, 0, 0, []⟩, "X"⟩] (by decide)

/-- C5: when the release list holds no non-prerelease release and a
non-prerelease latest is required, `getLatestRelease` produces the JS
`undefined` and the `.name` access at the call sites aborts resolution;
likewise for an empty list with prereleases allowed. No fallback value is
substituted. -/
theorem c5_latest_release_not_found :
    (∀ rels : List Release, (∀ r ∈ rels, r.prerelease = true) →
        getLatestRelease rels false = none
        ∧ latestReleaseName rels false = .error "TypeError: cannot read name of undefined")
    ∧ getLatestRelease ([] : List Release) true = none
    ∧ latestReleaseName ([] : List Release) true
        = .error "TypeError: cannot read name of undefined" := by
  refine ⟨?_, by decide, by decide⟩
  intro rels h
  have hf : rels.find? (fun r => !r.prerelease) = none := by
    rw [List.find?_eq_none]
    intro x hx
    simp [h x hx]
  constructor
  · simp [getLatestRelease, hf]
  · simp [latestReleaseName, getLatestRelease, hf]

/-- Witness for C5 on a one-element, all-prerelease release list. -/
theorem c5_witness :
    getLatestRelease [⟨"v1.0.0-rc.1", true⟩] false = none
    ∧ latestReleaseName [⟨"v1.0.0-rc.1", true⟩] false
        = .error "TypeError: cannot read name of undefined" :=
  c5_latest_release_not_found.1 [⟨"v1.0.0-rc.1", true⟩] (by decide)

/-- C8: reconciling a document that already holds a section with exactly
the target version succeeds, and reconciling the result again with the
same new section reproduces it: replacement is idempotent. -/
theorem c8_reconcile_idempotent (v : SemVer) (t : String) (es : List CEntry)
    (h : ∃ e ∈ es, v.cmp e.version = Ordering.eq) :
    (updateChangelog v t es).bind (updateChangelog v t) = updateChangelog v t es := by
  have hf := updLoop_flag_of_mem v t es false h
  have hi := updLoop_idem v t es false
  have h1 : updateChangelog v t es = .ok ((updLoop v t es false).1) := by
    simp only [updateChangelog]
    rw [hf]
    simp
  have h2 : updateChangelog v t ((updLoop v t es false).1)
      = .ok ((updLoop v t es false).1) := by
    simp only [updateChangelog]
    rw [hi, hf]
    simp
  rw [h1]
  exact h2

/-- Witness for C8 on a one-section document holding exactly the target
version. -/
theorem c8_witness :
    (updateChangelog ⟨1, 2, 0, []⟩ "new" [⟨⟨1, 2, 0, []⟩, "old"⟩]).bind
        (updateChangelog ⟨1, 2, 0, []⟩ "new")
      = updateChangelog ⟨1, 2, 0, []⟩ "new" [⟨⟨1, 2, 0, []⟩, "old"⟩] :=
  c8_reconcile_idempotent ⟨1, 2, 0, []⟩ "new" [⟨⟨1, 2, 0, []⟩, "old"⟩]
    ⟨⟨⟨1, 2, 0, []⟩, "old"⟩, by decide, by decide⟩

/-- C9: a call on a project whose name is already a key of the
accumulator returns the accumulator untouched with an empty effect
trace: no revision walk is performed and no subproject is visited,
whatever the environment, remaining fuel or other arguments. -/
theorem c9_reentry_guard (env : Env) (fuel : Nat) (name : String)
    (changes : ChangesByProject) (fromVer toVer : String) (branchMode : BranchMode)
    (forProject : String) (includeByDefault : Bool)
    (h : (lookupStr name changes).isSome = true) :
    collectChanges env fuel name changes fromVer toVer branchMode forProject
      includeByDefault = .ok (changes, []) := by
  unfold collectChanges
  rw [if_pos h]

/-- Witness for C9: re-entering a project already present in the
accumulator, with zero fuel left. -/
theorem c9_witness :
    collectChanges emptyEnv 0 "P" [("P", [])] "v1.0.0" "v2.0.0" BranchMode.Exact "P" true
      = .ok ([("P", [])], []) :=
  c9_reentry_guard emptyEnv 0 "P" [("P", [])] "v1.0.0" "v2.0.0" BranchMode.Exact "P" true
    (by decide)

/-- Any change selected for rendering passed the `shouldInclude`
filter. -/
theorem mem_renderedChanges_shouldInclude (cs : List IChange) (c : IChange)
    (h : c ∈ renderedChanges cs) : c.shouldInclude = true := by
  simp only [renderedChanges, List.mem_append, List.mem_filter] at h
  rcases h with ((h | h) | h) | h <;> tauto

/-- C10: a change whose type is Task or unset has no effective notes, is
never marked for inclusion, and is never rendered as a changelog entry;
the note-override rule of `getChangeNotes` only applies to changes typed
Feature, Bugfix or Deprecation. -/
theorem c10_task_and_unset_excluded :
    (∀ (c : IChange) (p : String),
        c.changeType = some ChangeType.TASK ∨ c.changeType = none →
        getChangeNotes c p = none)
    ∧ (∀ (c : IChange) (root : String) (incDef : Bool),
        c.changeType = some ChangeType.TASK ∨ c.changeType = none →
        shouldIncludeChange root c incDef = false)
    ∧ (∀ (cs : List IChange) (c : IChange) (root : String) (incDef : Bool),
        c.changeType = some ChangeType.TASK ∨ c.changeType = none →
        c.shouldInclude = shouldIncludeChange root c incDef →
        c ∉ renderedChanges cs)
    ∧ (∀ (c : IChange) (p : String),
        c.changeType = some ChangeType.FEATURE ∨ c.changeType = some ChangeType.BUGFIX
          ∨ c.changeType = some ChangeType.DEPRECATION →
        getChangeNotes c p =
          (match lookupStr p c.notesByProject with
            | some v => v
            | none => c.notes)) := by
  have hnotes : ∀ (c : IChange) (p : String),
      c.changeType = some ChangeType.TASK ∨ c.changeType = none →
      getChangeNotes c p = none := by
    intro c p h
    simp [getChangeNotes, h]
  have hinc : ∀ (c : IChange) (root : String) (incDef : Bool),
      c.changeType = some ChangeType.TASK ∨ c.changeType = none →
      shouldIncludeChange root c incDef = false := by
    intro c root incDef h
    simp [shouldIncludeChange, hnotes c root h]
  refine ⟨hnotes, hinc, ?_, ?_⟩
  · intro cs c root incDef h hset hmem
    have h1 := mem_renderedChanges_shouldInclude cs c hmem
    rw [hset, hinc c root incDef h] at h1
    exact Bool.false_ne_true h1
  · intro c p h
    have hne : ¬ (c.changeType = some ChangeType.TASK ∨ c.changeType = none) := by
      rcases h with h | h | h <;> simp [h]
    simp [getChangeNotes, hne]

/-- Witness for C10 on a concrete Task change with notes addressed to
`P`. -/
theorem c10_witness :
    getChangeNotes taskChange "P" = none
    ∧ shouldIncludeChange "P" taskChange true = false
    ∧ taskChange ∉ renderedChanges [taskChange] :=
  ⟨c10_task_and_unset_excluded.1 taskChange "P" (by decide),
   c10_task_and_unset_excluded.2.1 taskChange "P" true (by decide),
   c10_task_and_unset_excluded.2.2.1 [taskChange] taskChange "P" true (by decide) (by decide)⟩

/-- C2 (amended): inclusion is decided against the root project name:
`shouldInclude` is false when the effective note is null, true when an
explicit non-empty note addressed to the root project exists, and
otherwise inherits `includeByDefault`; in the two-project scenario, the
`S` change whose body addresses a note to the root `P` is included in the
merged accumulator despite the inherited `includeByDefault = false`,
while the notes-less `S` change is excluded. -/
theorem c2_inclusion_rules :
    (∀ (c : IChange) (root : String) (incDef : Bool),
        (getChangeNotes c root = none → shouldIncludeChange root c incDef = false)
        ∧ (getChangeNotes c root ≠ none →
            (∃ s, lookupStr root c.notesByProject = some (some s) ∧ s ≠ "") →
            shouldIncludeChange root c incDef = true)
        ∧ (getChangeNotes c root ≠ none →
            (¬ ∃ s, lookupStr root c.notesByProject = some (some s) ∧ s ≠ "") →
            shouldIncludeChange root c incDef = incDef))
    ∧ scenarioIncludeFlags (scenarioEnv prNoteP) = some [true, false] := by
  refine ⟨?_, by decide⟩
  intro c root incDef
  refine ⟨?_, ?_, ?_⟩
  · intro h
    simp [shouldIncludeChange, h]
  · intro h hex
    have ht : truthyNote (lookupStr root c.notesByProject) = true :=
      (truthyNote_iff _).mpr hex
    simp [shouldIncludeChange, h, ht]
  · intro h hex
    have ht : truthyNote (lookupStr root c.notesByProject) = false := by
      cases hb : truthyNote (lookupStr root c.notesByProject) with
      | false => rfl
      | true => exact absurd ((truthyNote_iff _).mp hb) hex
    simp [shouldIncludeChange, h, ht]

/-- Witness for C2 exercising all three inclusion rules on concrete
changes. -/
theorem c2_witness :
    shouldIncludeChange "P" changeNoteForP false = true
    ∧ shouldIncludeChange "P" taskChange true = false
    ∧ shouldIncludeChange "P" (changeFromPrInfo prNoNotes) false = false :=
  ⟨(c2_inclusion_rules.1 changeNoteForP "P" false).2.1 (by decide)
      ⟨"x", by decide, by decide⟩,
   (c2_inclusion_rules.1 taskChange "P" true).1 (by decide),
   (c2_inclusion_rules.1 (changeFromPrInfo prNoNotes) "P" false).2.2 (by decide)
      (by
        rintro ⟨s, hs, hne⟩
        have hl : lookupStr "P" (changeFromPrInfo prNoNotes).notesByProject = none := by
          decide
        rw [hl] at hs
        cases hs)⟩

/-- Counterexample for C2 as stated: in the literal scenario the note is
addressed to `S`, not to the root `P`, so the code excludes both `S`
changes from the merged accumulator (the claim asserts the first is
included); and an explicit but empty note addressed to the root is falsy
in the code, falling back to `includeByDefault` instead of forcing
inclusion. -/
theorem c2_counterexample :
    scenarioIncludeFlags (scenarioEnv prNoteS) = some [false, false]
    ∧ (changeFromPrInfo prNoteS).notesByProject = [("S", some "does a thing")]
    ∧ shouldIncludeChange "P" changeEmptyNote false = false
    ∧ getChangeNotes changeEmptyNote "P" = some "" := by
  decide

/-- C3 (amended): a body line that, after trimming, begins
case-insensitively with `notes: ` sets `notes` to the text of the trimmed
line strictly between its first and second colons (the remainder after
the first colon when no second colon exists), trimmed, with the literal
value `none` (case-insensitive) normalised to null. The claimed value —
the whole remainder after the first colon — is truncated at the second
colon by `split(':', 2)[1]`. Stated for a single-line body, where the
line scanned is exactly the body. -/
theorem c3_notes_between_colons (pr : PrInfo) (line : String)
    (hb : pr.body = some line)
    (hnl : ∀ c ∈ line.data, ¬ c = '\n')
    (hm : jsStartsWith NOTES_MAGIC_TEXT (jsToLower (jsTrim line)) = true) :
    (changeFromPrInfo pr).notes =
      (let v := jsTrim (textBetweenFirstTwoColons (jsTrim line))
       if jsToLower v = "none" then none else some v) := by
  have hline : line ≠ "" := by
    intro h0
    rw [h0] at hm
    exact absurd hm (by decide)
  have hsplit : splitOnChar '\n' line.data = [line.data] := splitOnChar_no_sep _ _ hnl
  simp only [changeFromPrInfo, hb, if_neg hline, hsplit]
  simp only [List.map_cons, List.map_nil, List.foldl_cons, List.foldl_nil]
  have hmk : (⟨line.data⟩ : String) = line := rfl
  rw [hmk]
  simp only [scanLine, if_pos hm]
  rw [splitColonSecond_eq]

/-- Witness for C3 on the body `Notes: None`, exercising the
`none` normalisation. -/
theorem c3_witness : (changeFromPrInfo prNotesNone).notes = none := by
  have h := c3_notes_between_colons prNotesNone "Notes: None" rfl (by decide) (by decide)
  rw [h]
  decide

/-- Counterexample for C3 as stated: on the body `notes: a: b` the code
records `a` (the text between the first two colons), not the full
remainder after the first colon, which trims to `a: b`. -/
theorem c3_counterexample :
    (changeFromPrInfo prColonNote).notes = some "a"
    ∧ jsTrim (specNotesRemainder (jsTrim "notes: a: b")) = "a: b"
    ∧ ("a" : String) ≠ "a: b" := by
  decide

/-- C6 (amended): the label table recognises exactly four labels —
`T-Deprecation`, `T-Enhancement`, `T-Defect`, `T-Task` — each mapping to
its own change type; `changeFromPrInfo` leaves `changeType` unset (the JS
`null`, distinct from every enum value) when no recognised label is
present, and each recognised label in isolation sets `changeType` exactly
per the table. -/
theorem c6_label_table :
    (∀ s : String, (lookupLabel s).isSome = true ↔
        s = "T-Deprecation" ∨ s = "T-Enhancement" ∨ s = "T-Defect" ∨ s = "T-Task")
    ∧ (∀ pr : PrInfo, (∀ l ∈ pr.labels, lookupLabel l.name = none) →
        (changeFromPrInfo pr).changeType = none)
    ∧ (∀ (pr : PrInfo) (lname : String) (t : ChangeType), pr.labels = [⟨lname⟩] →
        lookupLabel lname = some t → (changeFromPrInfo pr).changeType = some t) := by
  refine ⟨?_, ?_, ?_⟩
  · intro s
    by_cases h1 : "T-Deprecation" = s <;> by_cases h2 : "T-Enhancement" = s <;>
      by_cases h3 : "T-Defect" = s <;> by_cases h4 : "T-Task" = s <;>
      simp_all [lookupLabel, labelToChangeType, List.find?, eq_comm]
  · intro pr h
    have hscan : (labelScan pr.labels).1 = none := by
      unfold labelScan
      exact labelScan_none pr.labels (none, false) h
    simp [changeFromPrInfo, hscan]
  · intro pr lname t hl hlook
    have hscan : (labelScan pr.labels).1 = some t := by
      rw [hl]
      simp [labelScan, hlook]
    simp [changeFromPrInfo, hscan]

/-- Witness for C6: an unrecognised label leaves the type unset and
`T-Enhancement` alone yields Feature. -/
theorem c6_witness :
    (changeFromPrInfo prPlainLabel).changeType = none
    ∧ (changeFromPrInfo prEnhancement).changeType = some ChangeType.FEATURE :=
  ⟨c6_label_table.2.1 prPlainLabel (by decide),
   c6_label_table.2.2 prEnhancement "T-Enhancement" ChangeType.FEATURE rfl (by decide)⟩

/-- Counterexample for C6 as stated: the table recognises a fourth label,
`T-Deprecation`, whose type is none of the three the claim lists. -/
theorem c6_counterexample :
    lookupLabel "T-Deprecation" = some ChangeType.DEPRECATION
    ∧ (changeFromPrInfo prDeprecation).changeType = some ChangeType.DEPRECATION
    ∧ ¬ (ChangeType.DEPRECATION = ChangeType.FEATURE
          ∨ ChangeType.DEPRECATION = ChangeType.BUGFIX
          ∨ ChangeType.DEPRECATION = ChangeType.TASK) := by
  decide

/-- C7 (amended): a dependency pin whose first character is not an ASCII
digit (operator-prefixed ranges, tags, or an empty string) makes
`parseDepVersion` throw its not-exact error, and the failure propagates
out of `collectChanges` for that subtree, as evaluated on a parent whose
pin for `S` is the caret range `^1.0.0`. Pins beginning with a digit are
accepted without further validation. -/
theorem c7_inexact_pin_fails :
    (∀ (ver dep : String) (c : Char), ver.data.head? = some c → c.isDigit = false →
        parseDepVersion ver dep =
          .error ("Version " ++ ver ++ " of dependency " ++ dep ++ " is not exact!"))
    ∧ (∀ ver dep : String, ver.data.head? = none →
        parseDepVersion ver dep =
          .error ("Version " ++ ver ++ " of dependency " ++ dep ++ " is not exact!"))
    ∧ collectChanges envCaretPin 2 "P" [] "v1.0.0" "v2.0.0" BranchMode.Exact "P" true
        = .error "Version ^1.0.0 of dependency S is not exact!" := by
  refine ⟨?_, ?_, by decide⟩
  · intro ver dep c hc hd
    simp [parseDepVersion, hc, hd]
  · intro ver dep hc
    simp [parseDepVersion, hc]

/-- Witness for C7 on the caret range `^1.2.3`. -/
theorem c7_witness :
    parseDepVersion "^1.2.3" "elt" =
      .error ("Version " ++ "^1.2.3" ++ " of dependency " ++ "elt" ++ " is not exact!") :=
  c7_inexact_pin_fails.1 "^1.2.3" "elt" '^' rfl (by decide)

/-- Counterexample for C7 as stated: `1.x` is a range, not an exact
concrete version (even this model's semver parser rejects it), yet
`parseDepVersion` accepts it and the subproject walk proceeds to a
successful result instead of failing. -/
theorem c7_counterexample :
    parseDepVersion "1.x" "S" = .ok "v1.x"
    ∧ parseSemVer "1.x" = none
    ∧ (collectChanges envDigitRangePin 2 "P" [] "v1.0.0" "v2.0.0" BranchMode.Exact "P"
        true).isOk = true := by
  decide

end Allchange
